import Mathlib

/-!
Verification of the kolibri content query layer.

Shallow embedding of:
- `src/kolibri/core/mixins.py` (`FilterByUUIDQuerysetMixin`, `BulkDeleteMixin`)
- `src/kolibri/core/content/models.py` (`ContentNodeQueryset.dedupe_by_content_id`,
  `ContentNode.get_descendant_content_ids`, `LocalFileManager.delete_unused_files`)
- `src/kolibri/content/api.py` (`ContentNodeFilter`, `BulkDeleteMixin.bulk_destroy`)

Tables are modelled as Lists of records, querysets as filtered lists, and the
raw SQL membership clause built by `_by_uuids` by its denotation (a record
satisfies `col in (v1, ..., vn)` iff its column value equals one of the
identifier literals).
-/

namespace Kolibri

/-- A row of the ContentNode table. Fields are the ones the embedded
operations read: primary key (attname `id`), the non-unique logical
`content_id`, `title`/`description`, `kind`, the nested-set ordering fields
`lft`/`rght`/`tree_id`, the `parent` foreign key and the `available` flag. -/
structure Record where
  id : String
  content_id : String
  title : String
  description : String
  kind : String
  lft : Nat
  rght : Nat
  tree_id : Nat
  parent : Option String
  available : Bool
deriving DecidableEq, Repr

/-! ### Python `uuid.UUID(identifier, version=4)`

Models the CPython `uuid.UUID` constructor called with a `hex` string and
`version=4` (the validation used by `_by_uuids`).  CPython does:
`hex.replace(urn-colon, empty).replace(uuid-colon, empty)`, then strips curly
braces from both ends, removes every hyphen, requires the result to have
length exactly 32, and finally parses it with `int(hex, 16)`.  Passing
`version=4` only overwrites the version and variant bits afterwards — it
performs NO check that the string already carried version-4 bits. -/

/-- Remove every occurrence of `urn:` (left to right, as `str.replace`). -/
def removeUrn : List Char → List Char
  | 'u' :: 'r' :: 'n' :: ':' :: rest => removeUrn rest
  | c :: rest => c :: removeUrn rest
  | [] => []

/-- Remove every occurrence of `uuid:` (left to right, as `str.replace`). -/
def removeUuid : List Char → List Char
  | 'u' :: 'u' :: 'i' :: 'd' :: ':' :: rest => removeUuid rest
  | c :: rest => c :: removeUuid rest
  | [] => []

/-- A curly brace, written via its code point. -/
def isBrace (c : Char) : Bool := c.toNat = 123 || c.toNat = 125

/-- Python `str.strip` with the two brace characters: drop any run of braces
from both ends. -/
def stripBraces (l : List Char) : List Char :=
  ((l.dropWhile isBrace).reverse.dropWhile isBrace).reverse

def isHexDigitChar (c : Char) : Bool :=
  c.isDigit || ('a' ≤ c && c ≤ 'f') || ('A' ≤ c && c ≤ 'F')

def isPyWhitespace (c : Char) : Bool :=
  c = ' ' || c = '\t' || c = '\n' || c = '\r' || c = '\x0b' || c = '\x0c'

/-- Tail of a hex-digit run in CPython `int(s, 16)`: underscores are allowed
only between digits (no doubled, no trailing underscore). -/
def hexTail : List Char → Bool
  | [] => true
  | '_' :: c :: rest => isHexDigitChar c && hexTail rest
  | '_' :: [] => false
  | c :: rest => isHexDigitChar c && hexTail rest

/-- A nonempty hex-digit run (with legal underscores). -/
def hexRun : List Char → Bool
  | [] => false
  | c :: rest => isHexDigitChar c && hexTail rest

/-- After a `0x` prefix CPython additionally allows one leading underscore. -/
def hexAfterPrefix : List Char → Bool
  | '_' :: rest => hexRun rest
  | l => hexRun l

/-- CPython `int(s, 16)` succeeds: optional surrounding whitespace, optional
sign, optional `0x`/`0X` prefix, then a hex-digit run. -/
def pyIntHexOk (l : List Char) : Bool :=
  let l := (((l.dropWhile isPyWhitespace).reverse.dropWhile isPyWhitespace).reverse)
  let l := match l with
    | '+' :: r => r
    | '-' :: r => r
    | r => r
  match l with
    | '0' :: 'x' :: r => hexAfterPrefix r
    | '0' :: 'X' :: r => hexAfterPrefix r
    | r => hexRun r

/-- The cleaning pipeline of the CPython `uuid.UUID` constructor. -/
def pyUUIDClean (s : String) : List Char :=
  ((stripBraces (removeUuid (removeUrn s.toList))).filter (fun c => c ≠ '-'))

/-- `uuid.UUID(s, version=4)` succeeds (note: no version-bit check). -/
def pyUUIDStrOk (s : String) : Bool :=
  let l := pyUUIDClean s
  (l.length == 32) && pyIntHexOk l

/-- A valid version-4 UUID string in the sense of the spec: accepted by the
UUID parser, all 32 cleaned characters hex digits, version nibble `4` and
variant nibble in `8`/`9`/`a`/`b`. -/
def isValidUUID4String (s : String) : Bool :=
  let l := pyUUIDClean s
  pyUUIDStrOk s && l.all isHexDigitChar && (l.getD 12 'x' == '4') &&
    (l.getD 16 'x' ∈ (['8', '9', 'a', 'b', 'A', 'B'] : List Char))

/-! ### `FilterByUUIDQuerysetMixin._by_uuids` (src/kolibri/core/mixins.py) -/

/-- The two input shapes `_by_uuids` distinguishes: an already-built queryset
(of field values) or a raw list of identifier strings. -/
inductive IdsInput where
  | qset (ids : List String)
  | strs (ids : List String)
deriving DecidableEq, Repr

/-- The two backends the raw-clause path quotes identifiers for. -/
def supportedVendor (vendor : String) : Bool :=
  vendor == "sqlite" || vendor == "postgresql"

/-- Embeds `_by_uuids(self, ids, validate, field_name, include)`:
- queryset input: a plain `field__in` filter/exclude;
- string-list input: each entry is validated with `uuid.UUID(s, version=4)`
  when `validate` is set, and any failure returns `self.none()` (the empty
  queryset); otherwise the identifiers are embedded quoted into a raw
  `in (...)` / `not in (...)` clause.  The raw clause is modelled by its
  denotation — membership of the column value among the identifier strings —
  which is only meaningful for the two vendors the code quotes for, hence
  `none` (query not modelled) for any other vendor. -/
def byUuids (vendor : String) (qs : List Record) (field : Record → String)
    (ids : IdsInput) (validate : Bool) (inc : Bool) : Option (List Record) :=
  match ids with
  | .qset l =>
    if inc then some (qs.filter (fun r => decide (field r ∈ l)))
    else some (qs.filter (fun r => decide (field r ∉ l)))
  | .strs l =>
    if validate && l.any (fun s => !pyUUIDStrOk s) then some []
    else if supportedVendor vendor then
      if inc then some (qs.filter (fun r => decide (field r ∈ l)))
      else some (qs.filter (fun r => decide (field r ∉ l)))
    else none

/-- `filter_by_uuids`: `_by_uuids` on the primary-key field, including. -/
def filter_by_uuids (vendor : String) (qs : List Record) (ids : IdsInput)
    (validate : Bool := true) : Option (List Record) :=
  byUuids vendor qs Record.id ids validate true

/-- `exclude_by_uuids`: `_by_uuids` on the primary-key field, excluding. -/
def exclude_by_uuids (vendor : String) (qs : List Record) (ids : IdsInput)
    (validate : Bool := true) : Option (List Record) :=
  byUuids vendor qs Record.id ids validate false

lemma pyUUIDStrOk_of_valid {s : String} (h : isValidUUID4String s = true) :
    pyUUIDStrOk s = true := by
  unfold isValidUUID4String at h
  simp only [Bool.and_eq_true] at h
  exact h.1.1.1

lemma byUuids_validation_passes {l : List String}
    (h : ∀ s ∈ l, isValidUUID4String s = true) :
    (l.any (fun s => !pyUUIDStrOk s)) = false := by
  simp only [List.any_eq_false, Bool.not_eq_true]
  intro s hs
  have := pyUUIDStrOk_of_valid (h s hs)
  simp [this]

/-! ### Claims C1 and C2 -/

/-- Witness data: two records carrying valid version-4 UUID primary keys. -/
def wRec1 : Record :=
  ⟨"00000000-0000-4000-8000-000000000000", "c1", "t1", "d1", "video", 1, 2, 1, none, true⟩

def wRec2 : Record :=
  ⟨"11111111-1111-4111-9111-111111111111", "c2", "t2", "d2", "video", 3, 4, 1, none, true⟩

/-- A valid UUID hex string (so the code accepts it) that is NOT version 4
(version nibble is 0). -/
def zHex : String := "00000000000000000000000000000000"

def zRec : Record := ⟨zHex, "cz", "tz", "dz", "video", 1, 2, 1, none, true⟩

/-- C1: for every list of valid version-4 UUID strings and every record set,
`filter_by_uuids` returns exactly the records whose target-field (primary key)
value is in the list, and `exclude_by_uuids` returns exactly the complement of
that set within the original record set. -/
theorem filter_by_uuids_valid_correct (vendor : String) (qs : List Record)
    (ids : List String) (hv : supportedVendor vendor = true)
    (hids : ∀ s ∈ ids, isValidUUID4String s = true) :
    ∃ incl excl,
      filter_by_uuids vendor qs (.strs ids) = some incl ∧
      exclude_by_uuids vendor qs (.strs ids) = some excl ∧
      (∀ r, r ∈ incl ↔ r ∈ qs ∧ r.id ∈ ids) ∧
      (∀ r, r ∈ excl ↔ r ∈ qs ∧ r.id ∉ ids) ∧
      (∀ r ∈ qs, (r ∈ excl ↔ r ∉ incl)) := by
  have hpass := byUuids_validation_passes hids
  refine ⟨qs.filter (fun r => decide (r.id ∈ ids)),
          qs.filter (fun r => decide (r.id ∉ ids)), ?_, ?_, ?_, ?_, ?_⟩
  · simp [filter_by_uuids, byUuids, hpass, hv]
  · simp [exclude_by_uuids, byUuids, hpass, hv]
  · intro r; simp [List.mem_filter]
  · intro r; simp [List.mem_filter]
  · intro r hr; simp [List.mem_filter, hr]

theorem filter_by_uuids_valid_correct_witness :
    supportedVendor "sqlite" = true ∧
    (∀ s ∈ [wRec1.id], isValidUUID4String s = true) ∧
    ∃ incl excl,
      filter_by_uuids "sqlite" [wRec1, wRec2] (.strs [wRec1.id]) = some incl ∧
      exclude_by_uuids "sqlite" [wRec1, wRec2] (.strs [wRec1.id]) = some excl ∧
      (∀ r, r ∈ incl ↔ r ∈ [wRec1, wRec2] ∧ r.id ∈ [wRec1.id]) ∧
      (∀ r, r ∈ excl ↔ r ∈ [wRec1, wRec2] ∧ r.id ∉ [wRec1.id]) ∧
      (∀ r ∈ [wRec1, wRec2], (r ∈ excl ↔ r ∉ incl)) :=
  ⟨by decide, by decide,
    filter_by_uuids_valid_correct "sqlite" [wRec1, wRec2] [wRec1.id]
      (by decide) (by decide)⟩

/-- C2 counterexample: `zHex` is a valid UUID hex string but not a valid
version-4 UUID, yet `filter_by_uuids` with validation enabled does NOT return
the empty result set on it — `uuid.UUID(s, version=4)` never checks the
version bits, so the all-zero UUID passes validation and matches a record. -/
theorem filter_by_uuids_non_v4_counterexample :
    isValidUUID4String zHex = false ∧
    filter_by_uuids "sqlite" [zRec] (.strs [zHex]) = some [zRec] ∧
    ([zRec] : List Record) ≠ [] := by decide

/-- C2 (amended): with validation enabled, if any entry of the list fails the
UUID parse actually performed by the code (`uuid.UUID(s, version=4)`, which
accepts any well-formed UUID hex string regardless of its version bits), both
`filter_by_uuids` and `exclude_by_uuids` return the empty result set and raise
no exception, regardless of the validity of the other entries. -/
theorem by_uuids_invalid_entry_empty (vendor : String) (qs : List Record)
    (ids : List String) (h : ∃ s ∈ ids, pyUUIDStrOk s = false) :
    filter_by_uuids vendor qs (.strs ids) = some [] ∧
    exclude_by_uuids vendor qs (.strs ids) = some [] := by
  obtain ⟨s, hs, hbad⟩ := h
  have hany : (ids.any (fun s => !pyUUIDStrOk s)) = true := by
    simp only [List.any_eq_true]
    exact ⟨s, hs, by simp [hbad]⟩
  constructor
  · simp [filter_by_uuids, byUuids, hany]
  · simp [exclude_by_uuids, byUuids, hany]

theorem by_uuids_invalid_entry_empty_witness :
    (∃ s ∈ ["not-a-uuid", wRec1.id], pyUUIDStrOk s = false) ∧
    filter_by_uuids "sqlite" [wRec1] (.strs ["not-a-uuid", wRec1.id]) = some [] ∧
    exclude_by_uuids "sqlite" [wRec1] (.strs ["not-a-uuid", wRec1.id]) = some [] :=
  ⟨⟨"not-a-uuid", by decide, by decide⟩,
    by_uuids_invalid_entry_empty "sqlite" [wRec1] ["not-a-uuid", wRec1.id]
      ⟨"not-a-uuid", by decide, by decide⟩⟩

/-! ### `ContentNodeQueryset.dedupe_by_content_id`
(src/kolibri/core/content/models.py) -/

/-- `Min("id")` over the group of records sharing a given `content_id`: the
least primary-key string of the group (SQL MIN over the stored UUID strings),
or the empty string for an empty group. -/
def minPkOfGroup (qs : List Record) (c : String) : String :=
  match (qs.filter (fun r => r.content_id == c)).map Record.id with
  | [] => ""
  | x :: xs => xs.foldl min x

/-- Postgres `.distinct("content_id")` over an ordered list: keep the first
row of each `content_id` group, in order. -/
def distinctOnCid (seen : List String) : List Record → List Record
  | [] => []
  | r :: rs =>
    if r.content_id ∈ seen then distinctOnCid seen rs
    else r :: distinctOnCid (r.content_id :: seen) rs

/-- Embeds `dedupe_by_content_id`:
- sqlite: `values("content_id").annotate(node_id=Min("id"))` — one minimum
  primary key per distinct `content_id` — then `filter_by_uuids` with that
  queryset of ids;
- postgresql: `order_by("content_id").distinct("content_id")`;
- any other vendor: the method falls off the end of both branches and
  returns `None`. -/
def dedupe_by_content_id (vendor : String) (qs : List Record) :
    Option (List Record) :=
  if vendor == "sqlite" then
    filter_by_uuids vendor qs
      (.qset (((qs.map Record.content_id).dedup).map (minPkOfGroup qs)))
  else if vendor == "postgresql" then
    some (distinctOnCid []
      (List.insertionSort (fun a b => a.content_id ≤ b.content_id) qs))
  else none

lemma foldl_min_mem (xs : List String) (x : String) :
    xs.foldl min x ∈ x :: xs := by
  induction xs generalizing x with
  | nil => simp
  | cons y ys ih =>
    simp only [List.foldl_cons]
    rcases List.mem_cons.1 (ih (min x y)) with h2 | h2
    · rcases min_choice x y with h1 | h1 <;> rw [h2, h1]
      · exact List.mem_cons_self _ _
      · exact List.mem_cons_of_mem _ (List.mem_cons_self _ _)
    · exact List.mem_cons_of_mem _ (List.mem_cons_of_mem _ h2)

lemma minPkOfGroup_spec {qs : List Record} {c : String}
    (hc : c ∈ qs.map Record.content_id) :
    ∃ r ∈ qs, r.content_id = c ∧ r.id = minPkOfGroup qs c := by
  obtain ⟨r0, hr0, hr0c⟩ := List.mem_map.1 hc
  have hgrp : r0 ∈ qs.filter (fun r => r.content_id == c) := by
    simp [List.mem_filter, hr0, hr0c]
  unfold minPkOfGroup
  cases hmap : (qs.filter (fun r => r.content_id == c)).map Record.id with
  | nil =>
    exfalso
    have hm : r0.id ∈ (qs.filter (fun r => r.content_id == c)).map Record.id :=
      List.mem_map_of_mem _ hgrp
    rw [hmap] at hm
    exact List.not_mem_nil _ hm
  | cons x xs =>
    have hmem : xs.foldl min x ∈ x :: xs := foldl_min_mem xs x
    rw [← hmap] at hmem
    obtain ⟨r, hr, hrid⟩ := List.mem_map.1 hmem
    have hrq := List.mem_filter.1 hr
    exact ⟨r, hrq.1, by simpa using hrq.2, hrid⟩

lemma mem_minPk_ids {qs : List Record} (hpk : (qs.map Record.id).Nodup)
    {r : Record} (hr : r ∈ qs) :
    r.id ∈ ((qs.map Record.content_id).dedup).map (minPkOfGroup qs) ↔
      r.id = minPkOfGroup qs r.content_id := by
  constructor
  · intro h
    obtain ⟨c, hc, hcid⟩ := List.mem_map.1 h
    have hc2 : c ∈ qs.map Record.content_id := List.mem_dedup.1 hc
    obtain ⟨r2, hr2, hr2c, hr2id⟩ := minPkOfGroup_spec hc2
    have : r2 = r := List.inj_on_of_nodup_map hpk hr2 hr (by rw [hr2id, hcid])
    rw [← this, hr2c, hr2id, hcid]
  · intro h
    have hc : r.content_id ∈ (qs.map Record.content_id).dedup :=
      List.mem_dedup.2 (List.mem_map_of_mem _ hr)
    rw [h]
    exact List.mem_map_of_mem _ hc

lemma distinctOnCid_subset :
    ∀ (l : List Record) (seen : List String) (r : Record),
      r ∈ distinctOnCid seen l → r ∈ l := by
  intro l
  induction l with
  | nil => intro seen r h; simp [distinctOnCid] at h
  | cons a as ih =>
    intro seen r h
    by_cases ha : a.content_id ∈ seen
    · simp only [distinctOnCid, if_pos ha] at h
      exact List.mem_cons_of_mem _ (ih _ _ h)
    · simp only [distinctOnCid, if_neg ha] at h
      rcases List.mem_cons.1 h with h2 | h2
      · exact h2 ▸ List.mem_cons_self _ _
      · exact List.mem_cons_of_mem _ (ih _ _ h2)

lemma mem_map_distinctOnCid :
    ∀ (l : List Record) (seen : List String) (c : String),
      c ∈ (distinctOnCid seen l).map Record.content_id ↔
        c ∉ seen ∧ c ∈ l.map Record.content_id := by
  intro l
  induction l with
  | nil => intro seen c; simp [distinctOnCid]
  | cons a as ih =>
    intro seen c
    by_cases ha : a.content_id ∈ seen
    · simp only [distinctOnCid, if_pos ha, ih, List.map_cons, List.mem_cons]
      constructor
      · rintro ⟨h1, h2⟩; exact ⟨h1, Or.inr h2⟩
      · rintro ⟨h1, h2 | h2⟩
        · exact absurd (h2 ▸ ha) h1
        · exact ⟨h1, h2⟩
    · simp only [distinctOnCid, if_neg ha, List.map_cons, List.mem_cons, ih]
      constructor
      · rintro (h | ⟨h1, h2⟩)
        · exact ⟨fun hs => ha (h ▸ hs), Or.inl h⟩
        · exact ⟨fun hs => h1 (Or.inr hs), Or.inr h2⟩
      · rintro ⟨h1, h | h⟩
        · exact Or.inl h
        · by_cases hc : c = a.content_id
          · exact Or.inl hc
          · exact Or.inr ⟨fun hor => hor.elim hc h1, h⟩

lemma nodup_map_distinctOnCid :
    ∀ (l : List Record) (seen : List String),
      ((distinctOnCid seen l).map Record.content_id).Nodup := by
  intro l
  induction l with
  | nil => intro seen; simp [distinctOnCid]
  | cons a as ih =>
    intro seen
    by_cases ha : a.content_id ∈ seen
    · simpa only [distinctOnCid, if_pos ha] using ih seen
    · simp only [distinctOnCid, if_neg ha, List.map_cons, List.nodup_cons]
      refine ⟨fun hmem => ?_, ih _⟩
      have := (mem_map_distinctOnCid as (a.content_id :: seen) a.content_id).1 hmem
      exact this.1 (List.mem_cons_self _ _)

/-- C3: on each supported backend, `dedupe_by_content_id` returns records of
the input queryset with exactly one record per distinct `content_id` value,
and the returned `content_id`s are exactly the distinct `content_id` values of
the input (assuming primary keys are unique, as the database enforces). -/
theorem dedupe_by_content_id_correct (vendor : String) (qs : List Record)
    (hv : vendor = "sqlite" ∨ vendor = "postgresql")
    (hpk : (qs.map Record.id).Nodup) :
    ∃ out, dedupe_by_content_id vendor qs = some out ∧
      (∀ r ∈ out, r ∈ qs) ∧
      ((out.map Record.content_id).Nodup) ∧
      (∀ c, c ∈ out.map Record.content_id ↔ c ∈ qs.map Record.content_id) := by
  rcases hv with hv | hv <;> subst hv
  · -- sqlite branch
    refine ⟨qs.filter (fun r =>
      decide (r.id ∈ ((qs.map Record.content_id).dedup).map (minPkOfGroup qs))),
      rfl, fun r hr => (List.mem_filter.1 hr).1, ?_, ?_⟩
    · have hqs : qs.Nodup := List.Nodup.of_map _ hpk
      refine List.Nodup.map_on ?_ (List.Nodup.filter _ hqs)
      intro r hr r2 hr2 hcid
      have h1 := List.mem_filter.1 hr
      have h2 := List.mem_filter.1 hr2
      have e1 : r.id = minPkOfGroup qs r.content_id :=
        (mem_minPk_ids hpk h1.1).1 (by simpa using h1.2)
      have e2 : r2.id = minPkOfGroup qs r2.content_id :=
        (mem_minPk_ids hpk h2.1).1 (by simpa using h2.2)
      exact List.inj_on_of_nodup_map hpk h1.1 h2.1
        (by rw [e1, e2, hcid])
    · intro c
      constructor
      · intro hc
        obtain ⟨r, hr, hrc⟩ := List.mem_map.1 hc
        exact hrc ▸ List.mem_map_of_mem _ (List.mem_filter.1 hr).1
      · intro hc
        obtain ⟨r, hr, hrc, hrid⟩ := minPkOfGroup_spec hc
        have : r ∈ qs.filter (fun r =>
            decide (r.id ∈ ((qs.map Record.content_id).dedup).map (minPkOfGroup qs))) := by
          refine List.mem_filter.2 ⟨hr, ?_⟩
          simpa using (mem_minPk_ids hpk hr).2 (by rw [hrid, hrc])
        exact hrc ▸ List.mem_map_of_mem _ this
  · -- postgresql branch
    have hperm : List.Perm
        (List.insertionSort (fun a b => a.content_id ≤ b.content_id) qs) qs :=
      List.perm_insertionSort _ qs
    refine ⟨distinctOnCid []
      (List.insertionSort (fun a b => a.content_id ≤ b.content_id) qs),
      rfl, ?_, nodup_map_distinctOnCid _ _, ?_⟩
    · intro r hr
      exact hperm.mem_iff.1 (distinctOnCid_subset _ _ _ hr)
    · intro c
      rw [mem_map_distinctOnCid]
      simp only [List.not_mem_nil, not_false_iff, true_and]
      exact (hperm.map Record.content_id).mem_iff

/-- A third witness record sharing `wRec1`'s `content_id`. -/
def wRec3 : Record :=
  ⟨"22222222-2222-4222-a222-222222222222", "c1", "t3", "d3", "video", 5, 6, 1, none, true⟩

theorem dedupe_by_content_id_correct_witness :
    (("sqlite" : String) = "sqlite" ∨ ("sqlite" : String) = "postgresql") ∧
    (([wRec1, wRec2, wRec3].map Record.id).Nodup) ∧
    ∃ out, dedupe_by_content_id "sqlite" [wRec1, wRec2, wRec3] = some out ∧
      (∀ r ∈ out, r ∈ [wRec1, wRec2, wRec3]) ∧
      ((out.map Record.content_id).Nodup) ∧
      (∀ c, c ∈ out.map Record.content_id ↔
        c ∈ [wRec1, wRec2, wRec3].map Record.content_id) :=
  ⟨Or.inl rfl, by decide,
    dedupe_by_content_id_correct "sqlite" [wRec1, wRec2, wRec3]
      (Or.inl rfl) (by decide)⟩

/-- C9: when the backend vendor is neither sqlite nor postgresql,
`dedupe_by_content_id` falls through both branches and produces no queryset
at all (`None`). -/
theorem dedupe_by_content_id_other_vendor_none (vendor : String)
    (qs : List Record) (h1 : vendor ≠ "sqlite") (h2 : vendor ≠ "postgresql") :
    dedupe_by_content_id vendor qs = none := by
  unfold dedupe_by_content_id
  simp [h1, h2]

theorem dedupe_by_content_id_other_vendor_none_witness :
    ("mysql" : String) ≠ "sqlite" ∧ ("mysql" : String) ≠ "postgresql" ∧
    dedupe_by_content_id "mysql" [wRec1] = none :=
  ⟨by decide, by decide,
    dedupe_by_content_id_other_vendor_none "mysql" [wRec1]
      (by decide) (by decide)⟩

/-! ### `ContentNode.get_descendant_content_ids`
(src/kolibri/core/content/models.py) -/

/-- Embeds `get_descendant_content_ids`:
`ContentNode.objects.filter(lft__gte=self.lft, lft__lte=self.rght)
.exclude(kind=content_kinds.TOPIC).values_list("content_id", flat=True)`.
The query constrains only the left bound: it does not filter on `tree_id`
and does not exclude the node itself. -/
def get_descendant_content_ids (db : List Record) (n : Record) : List String :=
  ((db.filter (fun r => decide (n.lft ≤ r.lft) && decide (r.lft ≤ n.rght))).filter
    (fun r => !(r.kind == "topic"))).map Record.content_id

/-- Follows the claim's words for C4: the content ids of the non-topic nodes
other than `n` itself whose left bound falls within `n`'s [left, right]
interval and whose tree id matches `n`'s tree id. -/
def claimedDescendantContentIds (db : List Record) (n : Record) : List String :=
  (db.filter (fun r => decide (r ≠ n) && (r.tree_id == n.tree_id) &&
    decide (n.lft ≤ r.lft) && decide (r.lft ≤ n.rght) &&
    !(r.kind == "topic"))).map Record.content_id

/-- A one-channel nested-set tree (topic root with two leaves) plus a second
tree, satisfying the spec's nested-set invariant. -/
def nodeA : Record := ⟨"aaaa", "ca", "tA", "dA", "topic", 1, 6, 1, none, true⟩

def nodeB : Record := ⟨"bbbb", "cb", "tB", "dB", "video", 2, 3, 1, some "aaaa", true⟩

def nodeC : Record := ⟨"cccc", "cc", "tC", "dC", "video", 4, 5, 1, some "aaaa", true⟩

def nodeD : Record := ⟨"dddd", "cd", "tD", "dD", "video", 2, 3, 2, none, true⟩

/-- C4 (code bug): on a valid nested-set database, `get_descendant_content_ids`
of the leaf `nodeB` should return no content ids (a leaf has no descendants),
but the code returns `nodeB`'s own content id and the content id of `nodeD`,
which lives in a different tree — the query neither excludes the node itself
nor restricts to the node's `tree_id`, contradicting its own docstring
("content nodes that are descendants of this node"). -/
theorem get_descendant_content_ids_code_bug :
    claimedDescendantContentIds [nodeA, nodeB, nodeC, nodeD] nodeB = [] ∧
    get_descendant_content_ids [nodeA, nodeB, nodeC, nodeD] nodeB = ["cb", "cd"] := by
  decide

/-! ### `ContentNodeFilter.filter_recommendations`
(src/kolibri/content/api.py) -/

/-- A possible draw of `random.sample(population, k)` over the queryset:
a duplicate-free list of positions into the queryset, of the size the code
computes (`count = queryset.count()`, capped at 100). -/
def validPick (qs : List Record) (idxs : List Nat) : Prop :=
  idxs.Nodup ∧ idxs.length = (if qs.length > 100 then 100 else qs.length) ∧
    ∀ i ∈ idxs, i < qs.length

instance (qs : List Record) (idxs : List Nat) : Decidable (validPick qs idxs) := by
  unfold validPick; infer_instance

/-- Embeds `filter_recommendations`, with the pseudo-random choice made by
`random.sample` supplied as the list of chosen positions `idxs`:
`content_ids = queryset.values_list("content_id", flat=True)` (one entry per
record, duplicates included), `count = queryset.count()` capped at 100, then
`queryset.filter(content_id__in=sample(list(content_ids), count))`. -/
def filter_recommendations (qs : List Record) (idxs : List Nat) : List Record :=
  let content_ids := qs.map Record.content_id
  let sampled := idxs.filterMap (fun i => content_ids[i]?)
  qs.filter (fun r => decide (r.content_id ∈ sampled))

def rcA : Record := ⟨"pa", "a", "t", "d", "video", 1, 2, 1, none, true⟩

def rcB : Record := ⟨"pb", "b", "t", "d", "video", 3, 4, 1, none, true⟩

set_option maxRecDepth 40000 in
/-- C5 counterexample: a queryset of 101 records whose pool has only 2
distinct content ids ("a" once, "b" a hundred times).  The sample size is
capped at 100 and drawn from the positions of the duplicated content-id list,
so the draw that picks the hundred "b" positions misses "a" entirely — the
pool has fewer than 100 distinct values, yet not every value of the pool is
returned. -/
theorem filter_recommendations_counterexample :
    validPick (rcA :: List.replicate 100 rcB) (List.range' 1 100) ∧
    ((rcA :: List.replicate 100 rcB).map Record.content_id).dedup.length = 2 ∧
    "a" ∈ (rcA :: List.replicate 100 rcB).map Record.content_id ∧
    "a" ∉ (filter_recommendations (rcA :: List.replicate 100 rcB)
      (List.range' 1 100)).map Record.content_id := by
  decide

/-- C5 (amended): for every possible draw, `filter_recommendations` returns
records of the queryset whose content ids all come from the queryset's pool,
with at most 100 distinct content ids; and whenever the queryset itself has at
most 100 records the whole queryset is returned (so a pool of 10 distinct
identifiers in a queryset of at most 100 records yields all 10).  The sample
is drawn from the content-id list with multiplicity, so when the queryset has
more than 100 records a pool value can be missed even if the pool has fewer
than 100 distinct values. -/
theorem filter_recommendations_sample_correct (qs : List Record)
    (idxs : List Nat) (h : validPick qs idxs) :
    (∀ r ∈ filter_recommendations qs idxs, r ∈ qs) ∧
    (∀ c ∈ (filter_recommendations qs idxs).map Record.content_id,
      c ∈ qs.map Record.content_id) ∧
    ((filter_recommendations qs idxs).map Record.content_id).toFinset.card ≤ 100 ∧
    (qs.length ≤ 100 → filter_recommendations qs idxs = qs) := by
  obtain ⟨hnd, hlen, hlt⟩ := h
  refine ⟨fun r hr => (List.mem_filter.1 hr).1, ?_, ?_, ?_⟩
  · intro c hc
    obtain ⟨r, hr, hrc⟩ := List.mem_map.1 hc
    exact hrc ▸ List.mem_map_of_mem _ ((List.mem_filter.1 hr).1)
  · have hsub : ((filter_recommendations qs idxs).map Record.content_id).toFinset ⊆
        (idxs.filterMap (fun i => (qs.map Record.content_id)[i]?)).toFinset := by
      intro c hc
      rw [List.mem_toFinset] at hc ⊢
      obtain ⟨r, hr, hrc⟩ := List.mem_map.1 hc
      have := (List.mem_filter.1 hr).2
      simp only [decide_eq_true_eq] at this
      exact hrc ▸ this
    have hcap : idxs.length ≤ 100 := by
      rw [hlen]; split <;> omega
    calc ((filter_recommendations qs idxs).map Record.content_id).toFinset.card
        ≤ (idxs.filterMap (fun i => (qs.map Record.content_id)[i]?)).toFinset.card :=
          Finset.card_le_card hsub
      _ ≤ (idxs.filterMap (fun i => (qs.map Record.content_id)[i]?)).length :=
          List.toFinset_card_le _
      _ ≤ idxs.length := List.length_filterMap_le _ _
      _ ≤ 100 := hcap
  · intro h100
    have hlen2 : idxs.length = qs.length := by
      rw [hlen, if_neg (by omega)]
    have hcover : ∀ j, j < qs.length → j ∈ idxs := by
      have hsub : idxs.toFinset ⊆ Finset.range qs.length := by
        intro i hi
        exact Finset.mem_range.2 (hlt i (List.mem_toFinset.1 hi))
      have heq : idxs.toFinset = Finset.range qs.length :=
        Finset.eq_of_subset_of_card_le hsub
          (by rw [List.toFinset_card_of_nodup hnd, hlen2, Finset.card_range])
      intro j hj
      exact List.mem_toFinset.1 (heq ▸ Finset.mem_range.2 hj)
    apply List.filter_eq_self.2
    intro r hr
    obtain ⟨j, hjlt, hget⟩ := List.mem_iff_getElem.1 hr
    have hsome : (qs.map Record.content_id)[j]? = some r.content_id := by
      rw [List.getElem?_map, List.getElem?_eq_getElem hjlt, hget]
      rfl
    have : r.content_id ∈ idxs.filterMap (fun i => (qs.map Record.content_id)[i]?) :=
      List.mem_filterMap.2 ⟨j, hcover j hjlt, hsome⟩
    simpa [filter_recommendations] using this

theorem filter_recommendations_sample_correct_witness :
    validPick [rcA, rcB] [1, 0] ∧
    ((∀ r ∈ filter_recommendations [rcA, rcB] [1, 0], r ∈ [rcA, rcB]) ∧
    (∀ c ∈ (filter_recommendations [rcA, rcB] [1, 0]).map Record.content_id,
      c ∈ [rcA, rcB].map Record.content_id) ∧
    ((filter_recommendations [rcA, rcB] [1, 0]).map Record.content_id).toFinset.card ≤ 100 ∧
    ([rcA, rcB].length ≤ 100 → filter_recommendations [rcA, rcB] [1, 0] = [rcA, rcB])) :=
  ⟨⟨by decide, by decide, by decide⟩,
    filter_recommendations_sample_correct [rcA, rcB] [1, 0]
      ⟨by decide, by decide, by decide⟩⟩

/-! ### `ContentNodeFilter.filter_recommendations_for`
(src/kolibri/content/api.py; tree accessors from the django-mptt library) -/

/-- The filter condition of django-mptt `get_descendants(include_self=False)`:
same tree, left bound inside the open interval `[lft + 1, rght - 1]`. -/
def descCond (n r : Record) : Bool :=
  (r.tree_id == n.tree_id) && decide (n.lft + 1 ≤ r.lft) &&
    decide (r.lft ≤ n.rght - 1)

/-- Models the django-mptt library's
`MPTTModel.get_descendants(include_self=False)`: the empty queryset for a
leaf node (`rght = lft + 1`), otherwise all nodes of the node's tree whose
left bound lies in `[lft + 1, rght - 1]`, over the model's full manager. -/
def get_descendants (db : List Record) (n : Record) : List Record :=
  if n.rght = n.lft + 1 then [] else db.filter (descCond n)

/-- The filter condition of django-mptt `get_siblings(include_self=False)`:
same parent foreign key (both `None` when the node is a root), excluding the
node itself by primary key. -/
def sibCond (n r : Record) : Bool :=
  (r.parent == n.parent) && !(r.id == n.id)

/-- Models the django-mptt library's
`MPTTModel.get_siblings(include_self=False)` over the model's full manager. -/
def get_siblings (db : List Record) (n : Record) : List Record :=
  db.filter (sibCond n)

/-- Django `QuerySet.get(pk=value)`: the unique matching record; raises
(modelled as `none`) unless exactly one record matches. -/
def djangoGet (qs : List Record) (v : String) : Option Record :=
  match qs.filter (fun r => r.id == v) with
  | [r] => some r
  | _ => none

/-- Embeds `filter_recommendations_for`: look the node up by primary key in
the incoming queryset, then `descendants | siblings` — the Django `|` of two
filters over the same node table, i.e. the records satisfying either
condition, each underlying row appearing once.  Both operand querysets come
from the model's default manager (all nodes), not from the filtered
queryset. -/
def filter_recommendations_for (db qs : List Record) (value : String) :
    Option (List Record) :=
  match djangoGet qs value with
  | none => none
  | some n => some (db.filter (fun r => descCond n r || sibCond n r))

lemma mem_get_descendants {db : List Record} {n r : Record} :
    r ∈ get_descendants db n ↔ r ∈ db ∧ descCond n r = true := by
  unfold get_descendants
  split
  · rename_i hleaf
    simp only [List.not_mem_nil, false_iff, not_and]
    intro _ hc
    unfold descCond at hc
    simp only [Bool.and_eq_true, decide_eq_true_eq] at hc
    omega
  · simp [List.mem_filter]

/-- C6: for every node that the queryset lookup finds, the
`recommendations_for` filter returns exactly the union of the node's
descendant set and its sibling set, with no duplicate records (primary keys
being unique in the node table). -/
theorem filter_recommendations_for_union (db qs : List Record) (value : String)
    (n : Record) (hget : djangoGet qs value = some n)
    (hpk : (db.map Record.id).Nodup) :
    ∃ out, filter_recommendations_for db qs value = some out ∧
      out.Nodup ∧
      (∀ r, r ∈ out ↔ r ∈ get_descendants db n ∨ r ∈ get_siblings db n) := by
  refine ⟨db.filter (fun r => descCond n r || sibCond n r), ?_, ?_, ?_⟩
  · simp [filter_recommendations_for, hget]
  · exact List.Nodup.filter _ (List.Nodup.of_map _ hpk)
  · intro r
    rw [mem_get_descendants]
    simp only [get_siblings, List.mem_filter, Bool.or_eq_true]
    tauto

theorem filter_recommendations_for_union_witness :
    djangoGet [nodeA, nodeB, nodeC, nodeD] "bbbb" = some nodeB ∧
    (([nodeA, nodeB, nodeC, nodeD].map Record.id).Nodup) ∧
    ∃ out, filter_recommendations_for [nodeA, nodeB, nodeC, nodeD]
        [nodeA, nodeB, nodeC, nodeD] "bbbb" = some out ∧
      out.Nodup ∧
      (∀ r, r ∈ out ↔ r ∈ get_descendants [nodeA, nodeB, nodeC, nodeD] nodeB ∨
        r ∈ get_siblings [nodeA, nodeB, nodeC, nodeD] nodeB) :=
  ⟨by decide, by decide,
    filter_recommendations_for_union [nodeA, nodeB, nodeC, nodeD]
      [nodeA, nodeB, nodeC, nodeD] "bbbb" nodeB (by decide) (by decide)⟩

/-! ### `ContentNodeFilter.title_description_filter`
(src/kolibri/content/api.py) -/

/-- Contiguous-substring containment over character lists. -/
def isInfixList (needle : List Char) : List Char → Bool
  | [] => needle.isEmpty
  | c :: t => needle.isPrefixOf (c :: t) || isInfixList needle t

/-- Django `icontains`: case-insensitive substring containment (ASCII case
folding, as the sqlite `LIKE` backend implements it). -/
def icontains (hay needle : String) : Bool :=
  isInfixList (needle.toList.map Char.toLower) (hay.toList.map Char.toLower)

/-- Embeds `title_description_filter`:
`queryset.filter(Q(title__icontains=value) | Q(description__icontains=value))`.
Despite the inline comment about returning only the first 30 results, no cap
is applied. -/
def title_description_filter (qs : List Record) (value : String) : List Record :=
  qs.filter (fun r => icontains r.title value || icontains r.description value)

/-- C7: the text-search filter returns exactly the records whose title or
description contains the search string as a case-insensitive substring, and
its result count equals the full match count — no cap (in particular, when
more than 30 records match, all of them are returned). -/
theorem title_description_filter_correct (qs : List Record) (value : String) :
    (∀ r, r ∈ title_description_filter qs value ↔
      r ∈ qs ∧ (icontains r.title value || icontains r.description value) = true) ∧
    (title_description_filter qs value).length =
      qs.countP (fun r => icontains r.title value || icontains r.description value) := by
  constructor
  · intro r
    simp [title_description_filter, List.mem_filter]
  · simp [title_description_filter, List.countP_eq_length_filter]

/-! ### `BulkDeleteMixin` (src/kolibri/core/mixins.py) -/

/-- Embeds `allow_bulk_destroy`: true iff any request query-parameter key is
one of the viewset's `filter_fields`.  The `qs` and `filtered` arguments are
accepted and ignored, exactly as in the code. -/
def allow_bulk_destroy (filter_fields : List String)
    (query_params : List (String × String)) (_qs _filtered : List Record) : Bool :=
  query_params.any (fun kv => decide (kv.1 ∈ filter_fields))

/-- Embeds `bulk_destroy`: filter the full queryset through the request's
filter backend (`filterQ`), answer HTTP 400 when `allow_bulk_destroy` fails,
otherwise delete every filtered record one by one and answer HTTP 204.
Returns the response status code and the records remaining in the store. -/
def bulk_destroy (filter_fields : List String)
    (query_params : List (String × String))
    (filterQ : List Record → List Record) (db : List Record) :
    Nat × List Record :=
  let filtered := filterQ db
  if !allow_bulk_destroy filter_fields query_params db filtered then (400, db)
  else (204, db.filter (fun r => decide (r ∉ filtered)))

/-- C8: a bulk-destroy request none of whose query-parameter keys is a
recognized filter field is answered with HTTP 400 and deletes nothing — the
stored records are unchanged. -/
theorem bulk_destroy_unfiltered_rejected (filter_fields : List String)
    (query_params : List (String × String))
    (filterQ : List Record → List Record) (db : List Record)
    (h : ∀ kv ∈ query_params, kv.1 ∉ filter_fields) :
    bulk_destroy filter_fields query_params filterQ db = (400, db) := by
  have hallow :
      allow_bulk_destroy filter_fields query_params db (filterQ db) = false := by
    simp only [allow_bulk_destroy, List.any_eq_false, decide_eq_true_eq]
    exact h
  simp [bulk_destroy, hallow]

theorem bulk_destroy_unfiltered_rejected_witness :
    (∀ kv ∈ [("foo", "1")], kv.1 ∉ ["parent", "search"]) ∧
    bulk_destroy ["parent", "search"] [("foo", "1")] (fun l => l) [wRec1] =
      (400, [wRec1]) :=
  ⟨by decide,
    bulk_destroy_unfiltered_rejected ["parent", "search"] [("foo", "1")]
      (fun l => l) [wRec1] (by decide)⟩

/-! ### `LocalFileManager.delete_unused_files`
(src/kolibri/core/content/models.py) -/

/-- A row of the File table: primary key, the `local_file` foreign key and
the `contentnode` foreign key. -/
structure FileRow where
  id : String
  local_file : String
  contentnode : String
deriving DecidableEq, Repr

/-- A row of the LocalFile table: primary key (content hash) and the
availability flag. -/
structure LocalFileRow where
  id : String
  available : Bool
deriving DecidableEq, Repr

/-- The tables `delete_unused_files` touches. -/
structure ContentDB where
  nodes : List Record
  files : List FileRow
  localfiles : List LocalFileRow
deriving DecidableEq, Repr

/-- `files__contentnode__available=True` for one File row: its content node
exists and is available. -/
def fileNodeAvailable (db : ContentDB) (f : FileRow) : Bool :=
  db.nodes.any (fun n => n.id == f.contentnode && n.available)

/-- The unused-files condition of `get_unused_files` minus the availability
conjunct: `~Q(files__contentnode__available=True) | Q(files__isnull=True)` —
no File referencing this LocalFile belongs to an available content node, or
no File references it at all. -/
def unusedCond (db : ContentDB) (lf : LocalFileRow) : Bool :=
  !(db.files.any (fun f => f.local_file == lf.id && fileNodeAvailable db f)) ||
    !(db.files.any (fun f => f.local_file == lf.id))

/-- Embeds `get_unused_files`: the unused condition filtered down to the
currently available LocalFiles. -/
def get_unused_files (db : ContentDB) : List LocalFileRow :=
  db.localfiles.filter (fun lf => unusedCond db lf && lf.available)

/-- Embeds `delete_unused_files`, with on-disk removal success supplied by
`removeOk` (an `os.remove` that raises yields `False` for that file and the
iteration continues).  After the generator is exhausted it runs
`get_unused_files().update(available=False)`.  Returns the yielded
(flag, file) sequence and the updated tables. -/
def delete_unused_files (removeOk : LocalFileRow → Bool) (db : ContentDB) :
    List (Bool × LocalFileRow) × ContentDB :=
  let yields := (get_unused_files db).map (fun f => (removeOk f, f))
  let localfiles := db.localfiles.map (fun lf =>
    if unusedCond db lf && lf.available then { lf with available := false }
    else lf)
  (yields, { db with localfiles := localfiles })

/-- C10: after `delete_unused_files` has been fully iterated, every LocalFile
row still satisfying the unused-files condition has its `available` flag set
to `False` — including files whose on-disk removal failed (the final bulk
`update` does not consult the per-file removal flags). -/
theorem delete_unused_files_marks_unavailable (removeOk : LocalFileRow → Bool)
    (db : ContentDB) (lf : LocalFileRow)
    (hmem : lf ∈ (delete_unused_files removeOk db).2.localfiles)
    (hcond : unusedCond (delete_unused_files removeOk db).2 lf = true) :
    lf.available = false := by
  simp only [delete_unused_files, List.mem_map] at hmem
  obtain ⟨lf0, hlf0, heq⟩ := hmem
  have hsame : unusedCond (delete_unused_files removeOk db).2 lf
      = unusedCond db lf := by
    simp [unusedCond, fileNodeAvailable, delete_unused_files]
  by_cases h0 : unusedCond db lf0 && lf0.available
  · rw [if_pos h0] at heq
    rw [← heq]
  · rw [if_neg h0] at heq
    subst heq
    rw [hsame] at hcond
    simp only [Bool.and_eq_true, not_and] at h0
    cases hav : lf0.available
    · rfl
    · exact absurd hav (h0 hcond)

/-- Witness tables: one unavailable content node, one File tying it to one
available LocalFile, and a removal that fails on disk. -/
def wNode : Record := ⟨"n1", "cn", "t", "d", "video", 1, 2, 1, none, false⟩

def wFile : FileRow := ⟨"f1", "lf1", "n1"⟩

def wLocalFile : LocalFileRow := ⟨"lf1", true⟩

def wDB : ContentDB := ⟨[wNode], [wFile], [wLocalFile]⟩

theorem delete_unused_files_marks_unavailable_witness :
    (⟨"lf1", false⟩ : LocalFileRow) ∈
      (delete_unused_files (fun _ => false) wDB).2.localfiles ∧
    unusedCond (delete_unused_files (fun _ => false) wDB).2 ⟨"lf1", false⟩ = true ∧
    (⟨"lf1", false⟩ : LocalFileRow).available = false :=
  ⟨by decide, by decide,
    delete_unused_files_marks_unavailable (fun _ => false) wDB ⟨"lf1", false⟩
      (by decide) (by decide)⟩

end Kolibri
